import Mathlib

/-!
Verification of the keyword-analysis pipeline (`app.py`, `column_mapper.py`)
against its natural-language specification.  The Python source is shallowly
embedded: pandas cells holding NaN are `Option ℚ` with `none` for NaN,
pandas/NumPy extended values (±inf, NaN) produced by division are the type
`PVal`, and each relevant fragment of the source is translated into an
executable Lean definition placed next to a comment naming the source lines
it embeds.
-/

namespace KwAna

/-- Extended value as produced by pandas column arithmetic:
a finite number, `+inf`, `-inf`, or NaN. -/
inductive PVal where
  | num (q : ℚ)
  | pinf
  | ninf
  | nan
deriving DecidableEq, Repr

/-- NumPy/pandas elementwise division of finite values:
`x / 0` is `+inf`/`-inf` for `x ≷ 0` and NaN for `0 / 0`. -/
def pdiv (a b : ℚ) : PVal :=
  if b ≠ 0 then .num (a / b)
  else if 0 < a then .pinf
  else if a < 0 then .ninf
  else .nan

/-- Multiplication of an extended value by a finite scalar. -/
def pmul (v : PVal) (c : ℚ) : PVal :=
  match v with
  | .num q => .num (q * c)
  | .pinf => if 0 < c then .pinf else if c < 0 then .ninf else .nan
  | .ninf => if 0 < c then .ninf else if c < 0 then .pinf else .nan
  | .nan => .nan

/-- Round half to even (NumPy rounding) to an integer. -/
def rndHalfEven (x : ℚ) : ℤ :=
  let f : ℤ := ⌊x⌋
  let r : ℚ := x - f
  if r < 1/2 then f
  else if 1/2 < r then f + 1
  else if f % 2 = 0 then f else f + 1

/-- `Series.round(n)` on a finite value: round half to even at `n` decimals. -/
def roundTo (n : ℕ) (x : ℚ) : ℚ :=
  (rndHalfEven (x * 10 ^ n) : ℚ) / 10 ^ n

/-- `Series.round(n)` on an extended value (±inf and NaN are fixed points). -/
def roundP (n : ℕ) (v : PVal) : PVal :=
  match v with
  | .num q => .num (roundTo n q)
  | v => v

/-- pandas comparison `v <= t` on an extended value: NaN and `+inf` compare
false, `-inf` compares true. -/
def pvalLe (v : PVal) (t : ℚ) : Bool :=
  match v with
  | .num q => decide (q ≤ t)
  | .pinf => false
  | .ninf => true
  | .nan => true

/-! ### Metric Deriver (app.py lines 660–673)

Per-row cells are `Option ℚ` (`none` = NaN).  The source computes each ratio
with pandas division — which yields ±inf on division by zero and NaN when an
operand is NaN — rounds it, and then replaces ±inf by NaN (line 673).  The
net effect per cell is captured by `safeDiv`: any NaN operand or zero
denominator gives `none`. -/

/-- Division of two cells followed by the `replace([inf, -inf], nan)` step of
app.py line 673: NaN operands propagate and division by zero is NaN. -/
def safeDiv (a b : Option ℚ) : Option ℚ :=
  match a, b with
  | some x, some y => if y = 0 then none else some (x / y)
  | _, _ => none

/-- A canonicalized row's four base numeric cells (post `pd.to_numeric`). -/
structure NumRec where
  imps : Option ℚ
  clicks : Option ℚ
  cost : Option ℚ
  conv : Option ℚ
deriving DecidableEq, Repr

/-- app.py line 666: `CTR = (Clicks / Impressions * 100).round(2)`. -/
def dCTR (r : NumRec) : Option ℚ :=
  (safeDiv r.clicks r.imps).map (fun q => roundTo 2 (q * 100))

/-- app.py line 667: `CVR = (Conversions / Clicks * 100).round(2)`. -/
def dCVR (r : NumRec) : Option ℚ :=
  (safeDiv r.conv r.clicks).map (fun q => roundTo 2 (q * 100))

/-- app.py line 668: `CPC = (Cost / Clicks).round(0)`. -/
def dCPC (r : NumRec) : Option ℚ :=
  (safeDiv r.cost r.clicks).map (fun q => roundTo 0 q)

/-- app.py line 669: `CPA = (Cost / Conversions).round(0)`. -/
def dCPA (r : NumRec) : Option ℚ :=
  (safeDiv r.cost r.conv).map (fun q => roundTo 0 q)

/-- app.py line 670: `CPM = (Cost / Impressions * 1000).round(0)`. -/
def dCPM (r : NumRec) : Option ℚ :=
  (safeDiv r.cost r.imps).map (fun q => roundTo 0 (q * 1000))

/-! ### Numeric coercion (app.py lines 660–663)

`mapped_df[col] = pd.to_numeric(mapped_df[col].astype(str)
  .str.replace(',', '').str.replace('¥', ''), errors='coerce')`
applied to object-dtype columns.  A raw cell is already numeric, a string,
or blank/NaN; `to_numeric(..., errors='coerce')` turns unparseable strings
into NaN.  The string parser below models `to_numeric` on plain decimal
numerals (optional sign, digits, optional fractional part). -/

/-- A raw spreadsheet cell prior to numeric coercion. -/
inductive Cell where
  | num (q : ℚ)
  | str (s : String)
  | blank
deriving DecidableEq, Repr

/-- `.str.replace(',', '').str.replace('¥', '')`: drop every comma and yen
sign. -/
def cleanNumeric (s : String) : String :=
  ⟨s.data.filter (fun c => c ≠ ',' && c ≠ '¥')⟩

/-- Leading/trailing-whitespace strip on a character list. -/
def stripChars (l : List Char) : List Char :=
  ((l.dropWhile Char.isWhitespace).reverse.dropWhile Char.isWhitespace).reverse

/-- Python `str.strip()` (whitespace strip), used by the keyword-validity
tests of the source. -/
def pyStrip (s : String) : String :=
  ⟨stripChars s.data⟩

/-- Value of a digit string, `none` if empty or containing a non-digit. -/
def digitsVal : List Char → Option ℕ
  | [] => none
  | cs =>
    if cs.all Char.isDigit then
      some (cs.foldl (fun acc c => 10 * acc + (c.toNat - '0'.toNat)) 0)
    else none

/-- Parse a decimal numeral (optional sign, integer part, optional
fractional part) as `to_numeric` would; `none` models coercion to NaN. -/
def parseRat (s : String) : Option ℚ :=
  let cs := stripChars s.data
  let (neg, body) :=
    match cs with
    | '-' :: rest => (true, rest)
    | '+' :: rest => (false, rest)
    | rest => (false, rest)
  let intPart := body.takeWhile (fun c => c ≠ '.')
  let rest := body.dropWhile (fun c => c ≠ '.')
  let mag : Option ℚ :=
    match rest with
    | [] =>
      (digitsVal intPart).map (fun n => (n : ℚ))
    | '.' :: frac =>
      if intPart.isEmpty && frac.isEmpty then none
      else if (intPart.all Char.isDigit) && (frac.all Char.isDigit) then
        some ((intPart.foldl (fun acc c => 10 * acc + (c.toNat - '0'.toNat)) 0 : ℕ)
          + (frac.foldl (fun acc c => 10 * acc + (c.toNat - '0'.toNat)) 0 : ℕ)
            / (10 ^ frac.length : ℚ))
      else none
    | _ => none
  mag.map (fun m => if neg then -m else m)

/-- Numeric coercion of one cell (app.py lines 661–663): numeric cells pass
through, strings are cleaned and parsed, blanks/NaN stay NaN. -/
def toNumericCell (c : Cell) : Option ℚ :=
  match c with
  | .num q => some q
  | .str s => parseRat (cleanNumeric s)
  | .blank => none

/-- Canonicalize the four numeric raw cells of a row. -/
def canonRecord (imps clicks cost conv : Cell) : NumRec :=
  ⟨toNumericCell imps, toNumericCell clicks, toNumericCell cost, toNumericCell conv⟩

/-! ### Cost-Priority Selector (app.py lines 771–778)

`sorted_df = df.sort_values('Cost', ascending=False)`, then
`cumulative_cost = Cost.cumsum()`,
`cumulative_cost_percent = cumulative_cost / total_cost * 100`, and
`high_cost_df = sorted_df[cumulative_cost_percent <= cost_threshold]`.
Rows are represented by their `Cost`; the selector returns the 1-based
positions (in descending-cost order) of the rows kept. -/

/-- Insert into a descending-sorted list (stable). -/
def insertDesc (x : ℚ) : List ℚ → List ℚ
  | [] => [x]
  | y :: ys => if y < x then x :: y :: ys else y :: insertDesc x ys

/-- `sort_values('Cost', ascending=False)` on the cost column. -/
def sortDesc : List ℚ → List ℚ
  | [] => []
  | x :: xs => insertDesc x (sortDesc xs)

/-- Walk the sorted costs carrying the running cumulative sum `acc` and the
1-based position `i`; keep a position when its cumulative-cost percent of
`total` is `<=` the threshold `t` (pandas semantics for NaN/±inf percents
via `pvalLe`). -/
def selTag (t total : ℚ) : ℕ → ℚ → List ℚ → List ℕ
  | _, _, [] => []
  | i, acc, c :: rest =>
    let acc' := acc + c
    (if pvalLe (pmul (pdiv acc' total) 100) t then [i] else [])
      ++ selTag t total (i + 1) acc' rest

/-- app.py lines 772–778: positions (1-based, in descending-cost order) of
the rows whose cumulative-cost percent is at most `t`. -/
def selectPositions (costs : List ℚ) (t : ℚ) : List ℕ :=
  selTag t costs.sum 1 0 (sortDesc costs)

/-! ### Batch partition (app.py lines 807–808)

`batch_size = min(max_keywords_per_batch, 100)` and
`batches = [unique_keywords[i:i+batch_size] for i in range(0, len, batch_size)]`. -/

/-- Contiguous chunks of size `n` (empty for `n = 0`, where the Python
`range` step would be invalid). -/
def chunks (n : ℕ) : List α → List (List α)
  | [] => []
  | x :: xs =>
    if n = 0 then []
    else (x :: xs).take n :: chunks n ((x :: xs).drop n)
termination_by l => l.length
decreasing_by
  simp [List.length_drop]
  omega

/-! ### Unique keyword extraction (app.py lines 791–795)

`for kw in high_cost_df['Keyword'].unique(): if kw is not None and
str(kw).strip() != '': unique_keywords.append(kw)`.  `unique()` keeps the
first occurrence of each value; keyword cells are `Option String` with
`none` for missing values. -/

/-- Accumulator pass of `uniqueFirst`: drop values already seen. -/
def uniqueFirstAux [DecidableEq α] (seen : List α) : List α → List α
  | [] => []
  | a :: l =>
    if a ∈ seen then uniqueFirstAux seen l
    else a :: uniqueFirstAux (a :: seen) l

/-- First-occurrence deduplication (`pandas.Series.unique`). -/
def uniqueFirst [DecidableEq α] (l : List α) : List α :=
  uniqueFirstAux [] l

/-- app.py lines 791–795: deduplicate and drop missing/blank keywords,
keeping the original (untrimmed) string. -/
def uniqueKeywords (raws : List (Option String)) : List String :=
  (uniqueFirst raws).filterMap (fun c =>
    match c with
    | some s => if pyStrip s = "" then none else some s
    | none => none)

/-! ### Batch Classifier fallback (app.py lines 817–859)

Per batch: `result, error = categorize_keywords_with_llm(...)`; on error,
`backup_result, backup_error = cluster_keywords_with_llm(...)`; if the
backup also errors, every valid keyword of the batch is appended with the
sentinel pair `("未分類グループ", "自動分類")` (lines 843–851). -/

/-- A classifier output item `{keyword, axis_category, combination_category}`. -/
abbrev Assign := String × String × String

/-- One batch iteration of the loop at app.py lines 817–859, as a function
of the two oracle call outcomes (`result`/`error` from the primary call,
`backup_result`/`backup_error` from the clustering call). -/
def processBatch (result : Option (List Assign)) (error : Option String)
    (backupResult : Option (List Assign)) (backupError : Option String)
    (batch : List String) : List Assign :=
  match error with
  | some _ =>
    match backupError with
    | some _ =>
      batch.filterMap (fun kw =>
        if pyStrip kw = "" then none
        else some (kw, "未分類グループ", "自動分類"))
    | none => backupResult.getD []
  | none => result.getD []

/-- The whole classification loop under an oracle that fails both calls for
every batch with errors `e` (primary) and `e'` (clustering):
`all_categorized` after the loop. -/
def classifyAllFailing (cfg : ℕ) (uks : List String) (e e' : String) : List Assign :=
  ((chunks (min cfg 100) uks).map
    (fun b => processBatch none (some e) none (some e') b)).flatten

/-! ### Join step (app.py lines 868–885)

`category_map = {row['keyword']: {'axis': ..., 'combination': ...} for _, row
in categories_df.iterrows()}` — a Python dict built left to right, so a later
row with the same keyword overwrites an earlier one — and
`apply_categories(keyword)` returns the mapped pair or `("未分類", "未分類")`. -/

/-- Dict construction of app.py lines 873–874: fold the assignment list into
a finite map, later entries overwriting earlier ones. -/
def categoryMap (l : List Assign) : String → Option (String × String) :=
  l.foldl (fun m a => fun k => if k = a.1 then some a.2 else m k) (fun _ => none)

/-- `apply_categories` of app.py lines 877–881. -/
def applyCategories (l : List Assign) (k : String) : String × String :=
  match categoryMap l k with
  | some p => p
  | none => ("未分類", "未分類")

/-! ### Field Resolver (column_mapper.py lines 10–22 and 92–139,
duplicated in app.py lines 186–233)

`STANDARD_FIELDS` is the ordered alias table; per label, the source iterates
the fields in order trying an exact lowercase match against the field's own
name and then a lowercase substring match against each alias, breaking at
the first hit; if nothing matched, it scans every field name and alias with
`difflib.SequenceMatcher(...).ratio()` keeping the first candidate whose
score strictly beats the running best (initialized to the 0.7 threshold),
and maps to `"unknown"` when no candidate exceeded it.  The similarity
`ratio` is external library code, modelled as an abstract parameter
`sim : String → String → ℚ` (applied to the lowercased label and the
lowercased candidate exactly as in the source). -/

/-- Charwise lowercase (`str.lower()` on the basic-latin range; all
candidate strings are basic latin or Japanese, which both Python and this
function leave unchanged). -/
def strLower (s : String) : String :=
  ⟨s.data.map Char.toLower⟩

/-- `STANDARD_FIELDS` of column_mapper.py lines 10–19. -/
def STANDARD_FIELDS : List (String × List String) :=
  [("Keyword", ["キーワード", "keywords", "search term", "検索語句", "query"]),
   ("MatchType", ["マッチタイプ", "match type", "match", "matching", "タイプ", "一致タイプ"]),
   ("Impressions", ["imp", "imps", "impression", "インプレッション", "表示回数", "表示数", "露出数"]),
   ("Clicks", ["click", "クリック", "クリック数", "クリック回数", "click count"]),
   ("Cost", ["コスト", "cost", "費用", "金額", "spend", "支出"]),
   ("Conversions", ["conversion", "conv", "コンバージョン", "成約", "cv", "CVs", "GACV"]),
   ("CampaignName", ["キャンペーン名", "campaign", "キャンペーン", "campaign name", "キャンペーンネーム"]),
   ("AdGroupName", ["広告グループ名", "adgroup", "ad group", "広告グループ", "group name", "グループ名"])]

/-- `REQUIRED_FIELDS` of column_mapper.py line 22. -/
def REQUIRED_FIELDS : List String :=
  ["Keyword", "MatchType", "Impressions", "Clicks", "Cost", "Conversions"]

/-- `xs` occurs as a contiguous block at the start of `ys`. -/
def seqPrefix : List Char → List Char → Bool
  | [], _ => true
  | _ :: _, [] => false
  | a :: as, b :: bs => a = b && seqPrefix as bs

/-- Python `needle in hay` on strings: contiguous substring containment. -/
def seqContains (needle : List Char) : List Char → Bool
  | [] => needle.isEmpty
  | c :: t => seqPrefix needle (c :: t) || seqContains needle t

/-- `alt.lower() in col_lower` (column_mapper.py line 109). -/
def substrMatch (needle hay : String) : Bool :=
  seqContains needle.data hay.data

/-- One iteration of the field loop (column_mapper.py lines 100–115) on the
lowercased label `l`: exact match on the field's own name, then substring
match on its aliases. -/
def fieldRule (l : String) (f : String) (alts : List String) : Option String :=
  if l = strLower f then some f
  else if alts.any (fun a => substrMatch (strLower a) l) then some f
  else none

/-- The exact/substring phase of `suggest_column_mapping_with_rules`:
first field (in table order) whose rule fires. -/
def ruleMatch (l : String) : Option String :=
  STANDARD_FIELDS.findSome? (fun p => fieldRule l p.1 p.2)

/-- Fuzzy scan of column_mapper.py lines 117–132: fold over every field name
and alias in table order, keeping the first candidate whose score strictly
beats the running best (initialized to the threshold `7/10`). -/
def fuzzyScan (sim : String → String → ℚ) (l : String)
    (acc : Option String × ℚ) (cands : List (String × String)) : Option String × ℚ :=
  cands.foldl
    (fun a c => if a.2 < sim l (strLower c.2) then (some c.1, sim l (strLower c.2)) else a)
    acc

/-- The (field, candidate-string) enumeration of the fuzzy scan: for each
field, its own name then its aliases, in table order. -/
def fuzzyCandidates : List (String × String) :=
  (STANDARD_FIELDS.map (fun p => (p.1 :: p.2).map (fun c => (p.1, c)))).flatten

/-- Best fuzzy match (column_mapper.py lines 117–132): `none` when no score
strictly exceeded `0.7`. -/
def fuzzyBest (sim : String → String → ℚ) (l : String) : Option String :=
  (fuzzyScan sim l (none, 7/10) fuzzyCandidates).1

/-- `suggest_column_mapping_with_rules` on one label (column_mapper.py
lines 96–137): lowercase, run the exact/substring rules, then the fuzzy
scan, else `"unknown"`. -/
def resolveLabel (sim : String → String → ℚ) (col : String) : String :=
  let l := strLower col
  match ruleMatch l with
  | some f => f
  | none =>
    match fuzzyBest sim l with
    | some f => f
    | none => "unknown"

/-- `suggest_column_mapping_with_rules` (column_mapper.py lines 92–139). -/
def suggest_column_mapping_with_rules (sim : String → String → ℚ)
    (cols : List String) : List (String × String) :=
  cols.map (fun c => (c, resolveLabel sim c))

/-! Spec-side resolver, written from the claim's words: a global exact-match
phase over all canonical field names, then a global alias-substring phase,
then the fuzzy phase where the best-scoring candidate is accepted only if
its score strictly exceeds 0.7 with ties broken by the first-enumerated
candidate, and otherwise `"unknown"`. -/

/-- Spec phase 1: exact case-insensitive match against any canonical name. -/
def exactPhase (l : String) : Option String :=
  STANDARD_FIELDS.findSome? (fun p => if l = strLower p.1 then some p.1 else none)

/-- Spec phase 2: case-insensitive alias-substring match, first field wins. -/
def aliasPhase (l : String) : Option String :=
  STANDARD_FIELDS.findSome? (fun p =>
    if p.2.any (fun a => substrMatch (strLower a) l) then some p.1 else none)

/-- Spec phase 3: the first enumerated candidate whose score strictly
exceeds `0.7` and is at least every other candidate's score. -/
def fuzzyArgmax (sim : String → String → ℚ) (l : String) : Option String :=
  (fuzzyCandidates.find? (fun c =>
    decide (7/10 < sim l (strLower c.2)) &&
      fuzzyCandidates.all (fun d =>
        decide (sim l (strLower d.2) ≤ sim l (strLower c.2))))).map
    (fun c => c.1)

/-- The resolver as the claim describes it: exact phase, then alias phase,
then strict-threshold argmax fuzzy phase, else `"unknown"`. -/
def resolveLabelSpec (sim : String → String → ℚ) (col : String) : String :=
  let l := strLower col
  match exactPhase l with
  | some f => f
  | none =>
    match aliasPhase l with
    | some f => f
    | none =>
      match fuzzyArgmax sim l with
      | some f => f
      | none => "unknown"

/-! ### Mapping application (app.py lines 322–351 / column_mapper.py
lines 228–258)

After the operator's selections, `selected_mapping` collects every
non-placeholder choice; `missing = [f for f in REQUIRED_FIELDS if f not in
selected_mapping]`; a non-empty `missing` is reported and the function
returns `None, None` — otherwise the inverse mapping is applied to the
dataframe.  Selections are modelled as association lists
field → chosen column (the placeholder strings are the selectbox defaults). -/

/-- Placeholder of the required-field selectboxes. -/
def reqPlaceholder : String := "--選択してください--"

/-- Placeholder of the recommended-field selectboxes. -/
def recPlaceholder : String := "--なし--"

/-- `selected_mapping` (app.py lines 324–332): keep selections that are not
the placeholder. -/
def selectedMapping (reqSel recSel : List (String × String)) : List (String × String) :=
  reqSel.filter (fun p => p.2 ≠ reqPlaceholder)
    ++ recSel.filter (fun p => p.2 ≠ recPlaceholder)

/-- `missing` (app.py line 335): required fields absent from
`selected_mapping`. -/
def missingFields (sel : List (String × String)) : List String :=
  REQUIRED_FIELDS.filter (fun f => ¬ sel.any (fun p => p.1 = f))

/-- The apply step (app.py lines 322–351): refuse with exactly the missing
required-field names, or rename the dataframe columns and return it with
the confirmed mapping.  A dataframe is its list of (column name, column)
pairs. -/
def applyMapping (reqSel recSel : List (String × String))
    (df : List (String × List Cell)) :
    Except (List String) (List (String × List Cell) × List (String × String)) :=
  let sel := selectedMapping reqSel recSel
  let missing := missingFields sel
  if missing.isEmpty then
    .ok (df.map (fun col =>
      match sel.find? (fun p => p.2 = col.1) with
      | some p => (p.1, col.2)
      | none => col), sel)
  else
    .error missing

/-! ### `cluster_keywords_with_llm` return arity (app.py lines 446–539)

The no-credential branch (line 449) returns a 3-tuple
`(None, None, message)`; every other return path returns a 2-tuple.  The
call site (app.py line 834) unpacks exactly two values.  Python tuples are
modelled as lists of dynamic values and tuple unpacking as `unpackPair`. -/

/-- A Python value as returned by `cluster_keywords_with_llm`. -/
inductive PyVal where
  | pyNone
  | pyList (l : List Assign)
  | pyStr (s : String)
deriving DecidableEq, Repr

/-- Outcome of the oracle interaction inside the `try` block. -/
inductive OracleOutcome where
  | ok (items : List Assign)
  | parseFail (raw : String)
  | exn (msg : String)

/-- `cluster_keywords_with_llm` (app.py lines 446–539) as a function of the
oracle outcome, returning the Python tuple of each `return` statement. -/
def cluster_keywords_with_llm (keywords : List String) (apiKey : String)
    (oracle : OracleOutcome) : List PyVal :=
  if apiKey = "" then
    [.pyNone, .pyNone, .pyStr "APIキーが設定されていません。"]
  else
    let valid := keywords.filter (fun k => pyStrip k ≠ "")
    if valid.isEmpty then
      [.pyList [], .pyStr "有効なキーワードがありません。"]
    else
      match oracle with
      | .ok items => [.pyList items, .pyNone]
      | .parseFail raw => [.pyNone, .pyStr ("JSONパースエラー: " ++ raw)]
      | .exn m => [.pyNone, .pyStr ("LLMクラスタリングエラー: " ++ m)]

/-- Python unpacking `a, b = t`: succeeds exactly on a 2-tuple, otherwise
raises a ValueError. -/
def unpackPair (t : List PyVal) : Except String (PyVal × PyVal) :=
  match t with
  | [a, b] => .ok (a, b)
  | _ => .error "ValueError: not enough values to unpack"

/-! ### Category Aggregator (app.py lines 952–1040)

Five structurally identical blocks: `groupby(key).agg({'Keyword': 'count',
'Impressions': 'sum', 'Clicks': 'sum', 'Cost': 'sum', 'Conversions':
'sum'})`, then the derived columns `CTR`, `CVR`, `CPC`, `CPA` from the
aggregated sums, then renaming `Keyword` to `キーワード数`.  A rollup row is
the association list of its columns; pandas drops rows whose grouping key
is NaN (`key r = none`), skips NaN in sums, and `count` counts the non-null
`Keyword` entries of the group.  Group-key ordering does not affect any
claim; keys are listed in first-occurrence order. -/

/-- A categorized row (post join step). -/
structure CatRow where
  keyword : Option String
  matchType : Option String
  axisCategory : String
  combinationCategory : String
  imps : Option ℚ
  clicks : Option ℚ
  cost : Option ℚ
  conv : Option ℚ
deriving DecidableEq, Repr

/-- pandas `sum` over a column: NaN entries are skipped. -/
def sumOpt (l : List (Option ℚ)) : ℚ :=
  (l.filterMap id).sum

/-- The columns of one rollup row: count, the four summed bases, and the
four derived ratios of app.py lines 962–965 (and the parallel blocks)
recomputed from the sums. -/
def statRow (cnt sImp sClk sCost sConv : ℚ) : List (String × PVal) :=
  [("キーワード数", .num cnt),
   ("Impressions", .num sImp),
   ("Clicks", .num sClk),
   ("Cost", .num sCost),
   ("Conversions", .num sConv),
   ("CTR", roundP 2 (pmul (pdiv sClk sImp) 100)),
   ("CVR", roundP 2 (pmul (pdiv sConv sClk) 100)),
   ("CPC", roundP 0 (pdiv sCost sClk)),
   ("CPA", roundP 0 (pdiv sCost sConv))]

/-- Generic `groupby(key).agg(...)` block plus derived columns, shared by
the five rollups of app.py lines 952–1040. -/
def groupAgg {K : Type} [DecidableEq K] (key : CatRow → Option K)
    (rows : List CatRow) : List (K × List (String × PVal)) :=
  (uniqueFirst (rows.filterMap key)).map (fun k =>
    let g := rows.filter (fun r => key r = some k)
    (k, statRow ((g.filter (fun r => r.keyword.isSome)).length)
      (sumOpt (g.map (·.imps))) (sumOpt (g.map (·.clicks)))
      (sumOpt (g.map (·.cost))) (sumOpt (g.map (·.conv)))))

/-- `axis_stats` (app.py lines 953–968). -/
def axis_stats (rows : List CatRow) : List (String × List (String × PVal)) :=
  groupAgg (fun r => some r.axisCategory) rows

/-- `combination_stats` (app.py lines 971–986). -/
def combination_stats (rows : List CatRow) : List (String × List (String × PVal)) :=
  groupAgg (fun r => some r.combinationCategory) rows

/-- `cross_stats` (app.py lines 989–1004). -/
def cross_stats (rows : List CatRow) :
    List ((String × String) × List (String × PVal)) :=
  groupAgg (fun r => some (r.axisCategory, r.combinationCategory)) rows

/-- `match_type_stats` (app.py lines 1007–1022). -/
def match_type_stats (rows : List CatRow) : List (String × List (String × PVal)) :=
  groupAgg (fun r => r.matchType) rows

/-- `axis_match_type_stats` (app.py lines 1025–1040). -/
def axis_match_type_stats (rows : List CatRow) :
    List ((String × String) × List (String × PVal)) :=
  groupAgg (fun r => r.matchType.map (fun m => (r.axisCategory, m))) rows

/-- Column lookup in a rollup row. -/
def lookupField (s : String) (l : List (String × PVal)) : Option PVal :=
  (l.find? (fun p => p.1 = s)).map (·.2)

/-- The property C2 asserts of one rollup row (with CPM's absence recorded
as the code has it): the count column, the four summed base columns, and
the four ratio columns recomputed from the group's sums are all present
with exactly those values, and there is no CPM column. -/
def ratioFieldsOK {K : Type} [DecidableEq K] (key : CatRow → Option K)
    (rows : List CatRow) (k : K) (fields : List (String × PVal)) : Prop :=
  let g := rows.filter (fun r => key r = some k)
  let sImp := sumOpt (g.map (·.imps))
  let sClk := sumOpt (g.map (·.clicks))
  let sCost := sumOpt (g.map (·.cost))
  let sConv := sumOpt (g.map (·.conv))
  lookupField "キーワード数" fields =
      some (.num ((g.filter (fun r => r.keyword.isSome)).length)) ∧
  lookupField "Impressions" fields = some (.num sImp) ∧
  lookupField "Clicks" fields = some (.num sClk) ∧
  lookupField "Cost" fields = some (.num sCost) ∧
  lookupField "Conversions" fields = some (.num sConv) ∧
  lookupField "CTR" fields = some (roundP 2 (pmul (pdiv sClk sImp) 100)) ∧
  lookupField "CVR" fields = some (roundP 2 (pmul (pdiv sConv sClk) 100)) ∧
  lookupField "CPC" fields = some (roundP 0 (pdiv sCost sClk)) ∧
  lookupField "CPA" fields = some (roundP 0 (pdiv sCost sConv)) ∧
  lookupField "CPM" fields = none

/-- A concrete categorized row used for concrete evaluations. -/
def sampleRow : CatRow :=
  ⟨some "a", some "完全一致", "A", "X", some 100, some 10, some 50, some 1⟩

/-! ## Helper lemmas -/

theorem chunks_flatten {α : Type _} (n : ℕ) (hn : 1 ≤ n) :
    ∀ l : List α, (chunks n l).flatten = l := by
  have key : ∀ (m : ℕ) (l : List α), l.length ≤ m → (chunks n l).flatten = l := by
    intro m
    induction m with
    | zero =>
      intro l hl
      have : l = [] := by
        cases l with
        | nil => rfl
        | cons x xs => simp at hl
      subst this
      simp [chunks]
    | succ m ih =>
      intro l hl
      cases l with
      | nil => simp [chunks]
      | cons x xs =>
        rw [chunks, if_neg (by omega)]
        simp only [List.flatten_cons]
        rw [ih ((x :: xs).drop n) (by simp [List.length_drop, List.length_cons] at *; omega)]
        exact List.take_append_drop n (x :: xs)
  intro l
  exact key l.length l le_rfl

theorem chunks_length_le {α : Type _} (n : ℕ) :
    ∀ (l : List α) (b : List α), b ∈ chunks n l → b.length ≤ n := by
  have key : ∀ (m : ℕ) (l : List α) (b : List α),
      l.length ≤ m → b ∈ chunks n l → b.length ≤ n := by
    intro m
    induction m with
    | zero =>
      intro l b hl hb
      cases l with
      | nil => simp [chunks] at hb
      | cons x xs => simp at hl
    | succ m ih =>
      intro l b hl hb
      cases l with
      | nil => simp [chunks] at hb
      | cons x xs =>
        rw [chunks] at hb
        by_cases hn : n = 0
        · rw [if_pos hn] at hb
          simp at hb
        · rw [if_neg hn] at hb
          rcases List.mem_cons.mp hb with h | h
          · subst h
            simp [List.length_take]
          · exact ih ((x :: xs).drop n) b (by simp [List.length_drop, List.length_cons] at *; omega) h
  intro l b hb
  exact key l.length l b le_rfl hb

theorem uniqueFirstAux_subset {α : Type _} [DecidableEq α] :
    ∀ (l seen : List α) (a : α), a ∈ uniqueFirstAux seen l → a ∈ l := by
  intro l
  induction l with
  | nil =>
    intro seen a ha
    simp [uniqueFirstAux] at ha
  | cons x xs ih =>
    intro seen a ha
    rw [uniqueFirstAux] at ha
    by_cases hx : x ∈ seen
    · rw [if_pos hx] at ha
      exact List.mem_cons_of_mem x (ih seen a ha)
    · rw [if_neg hx] at ha
      rcases List.mem_cons.mp ha with h | h
      · exact h ▸ List.mem_cons_self x xs
      · exact List.mem_cons_of_mem x (ih (x :: seen) a h)

theorem uniqueFirstAux_disjoint_nodup {α : Type _} [DecidableEq α] :
    ∀ (l seen : List α),
      (∀ x ∈ uniqueFirstAux seen l, x ∉ seen) ∧ (uniqueFirstAux seen l).Nodup := by
  intro l
  induction l with
  | nil =>
    intro seen
    simp [uniqueFirstAux]
  | cons x xs ih =>
    intro seen
    rw [uniqueFirstAux]
    by_cases hx : x ∈ seen
    · rw [if_pos hx]
      exact ih seen
    · rw [if_neg hx]
      obtain ⟨hdisj, hnodup⟩ := ih (x :: seen)
      refine ⟨?_, ?_⟩
      · intro y hy
        rcases List.mem_cons.mp hy with h | h
        · exact h ▸ hx
        · intro hseen
          exact hdisj y h (List.mem_cons_of_mem x hseen)
      · refine List.nodup_cons.mpr ⟨?_, hnodup⟩
        intro hmem
        exact hdisj x hmem (List.mem_cons_self x seen)

theorem uniqueFirst_nodup {α : Type _} [DecidableEq α] (l : List α) :
    (uniqueFirst l).Nodup :=
  (uniqueFirstAux_disjoint_nodup l []).2

theorem uniqueKeywords_valid (raws : List (Option String)) :
    ∀ s ∈ uniqueKeywords raws, pyStrip s ≠ "" := by
  intro s hs
  rw [uniqueKeywords, List.mem_filterMap] at hs
  obtain ⟨c, _, hc⟩ := hs
  cases c with
  | none => simp at hc
  | some t =>
    by_cases ht : pyStrip t = ""
    · simp [ht] at hc
    · simp only [if_neg ht, Option.some.injEq] at hc
      exact hc ▸ ht

theorem uniqueKeywords_nodup (raws : List (Option String)) :
    (uniqueKeywords raws).Nodup := by
  rw [uniqueKeywords]
  refine List.Nodup.filterMap ?_ (uniqueFirst_nodup raws)
  intro a a' b hb hb'
  cases a with
  | none => simp at hb
  | some s =>
    cases a' with
    | none => simp at hb'
    | some s' =>
      by_cases hs : s.trim = "" <;> by_cases hs' : s'.trim = "" <;>
        simp [hs, hs'] at hb hb' <;> simp [hb, hb']

theorem processBatch_failing (e e' : String) (b : List String)
    (hb : ∀ kw ∈ b, pyStrip kw ≠ "") :
    processBatch none (some e) none (some e') b =
      b.map (fun kw => (kw, "未分類グループ", "自動分類")) := by
  rw [processBatch]
  induction b with
  | nil => rfl
  | cons kw t ih =>
    rw [List.filterMap_cons, if_neg (hb kw (List.mem_cons_self kw t)), List.map_cons]
    rw [ih (fun x hx => hb x (List.mem_cons_of_mem kw hx))]

/-! ## Claim theorems -/

/-- C8: the Batch Classifier partitions the selected keyword set into
contiguous batches (their concatenation, in order, is exactly the input
list, so every selected keyword lies in exactly one batch) whose size never
exceeds `min (configured max-keywords-per-batch) 100`, a hard ceiling of 100
regardless of the configured value. -/
theorem batch_partition_bounded (cfg : ℕ) (kws : List String) (hcfg : 1 ≤ cfg) :
    (chunks (min cfg 100) kws).flatten = kws ∧
    (∀ b ∈ chunks (min cfg 100) kws, b.length ≤ min cfg 100) ∧
    min cfg 100 ≤ 100 := by
  refine ⟨chunks_flatten _ (by omega) kws, fun b hb => chunks_length_le _ kws b hb, ?_⟩
  omega

/-- Witness for C8 at the configured value 250 and a concrete keyword
list. -/
theorem batch_partition_bounded_witness :
    (chunks (min 250 100) ["a", "b", "c"]).flatten = ["a", "b", "c"] ∧
    min 250 100 ≤ 100 :=
  ⟨(batch_partition_bounded 250 ["a", "b", "c"] (by omega)).1,
   (batch_partition_bounded 250 ["a", "b", "c"] (by omega)).2.2⟩

/-- C6: when both the primary classification call and the clustering call
fail for every batch, every unique keyword receives the sentinel pair
`("未分類グループ", "自動分類")`, and the returned assignment list covers the
unique keywords exactly once (its keyword projection is the unique keyword
list, which has no duplicates), so the pipeline ends with a full assignment
set. -/
theorem batch_classifier_sentinel_fallback (raws : List (Option String))
    (cfg : ℕ) (e e' : String) (hcfg : 1 ≤ cfg) :
    (classifyAllFailing cfg (uniqueKeywords raws) e e').map (fun a => a.1) =
      uniqueKeywords raws ∧
    (uniqueKeywords raws).Nodup ∧
    ∀ a ∈ classifyAllFailing cfg (uniqueKeywords raws) e e',
      a.2.1 = "未分類グループ" ∧ a.2.2 = "自動分類" := by
  set uks := uniqueKeywords raws with huks
  have hvalid : ∀ s ∈ uks, pyStrip s ≠ "" := uniqueKeywords_valid raws
  have hflat : (chunks (min cfg 100) uks).flatten = uks :=
    chunks_flatten _ (by omega) uks
  have hbatch : ∀ b ∈ chunks (min cfg 100) uks,
      processBatch none (some e) none (some e') b =
        b.map (fun kw => (kw, "未分類グループ", "自動分類")) := by
    intro b hb
    refine processBatch_failing e e' b (fun kw hkw => hvalid kw ?_)
    rw [← hflat]
    exact List.mem_flatten_of_mem hb hkw
  have hmapeq : (chunks (min cfg 100) uks).map
      (fun b => processBatch none (some e) none (some e') b) =
      (chunks (min cfg 100) uks).map
        (fun b => b.map (fun kw => (kw, "未分類グループ", "自動分類"))) :=
    List.map_congr_left hbatch
  have hres : classifyAllFailing cfg uks e e' =
      uks.map (fun kw => (kw, "未分類グループ", "自動分類")) := by
    rw [classifyAllFailing, hmapeq, ← List.map_flatten, hflat]
  refine ⟨?_, uniqueKeywords_nodup raws, ?_⟩
  · rw [hres, List.map_map]
    exact List.map_id'' (fun _ => rfl) uks
  · intro a ha
    rw [hres, List.mem_map] at ha
    obtain ⟨kw, _, hkw⟩ := ha
    rw [← hkw]
    exact ⟨rfl, rfl⟩

/-- Witness for C6 at a concrete raw keyword column. -/
theorem batch_classifier_sentinel_fallback_witness :
    (classifyAllFailing 3 (uniqueKeywords [some "a", some "b", none, some "a"]) "E" "E2").map
        (fun a => a.1) =
      uniqueKeywords [some "a", some "b", none, some "a"] ∧
    (uniqueKeywords [some "a", some "b", none, some "a"]).Nodup :=
  ⟨(batch_classifier_sentinel_fallback [some "a", some "b", none, some "a"] 3 "E" "E2"
      (by omega)).1,
   (batch_classifier_sentinel_fallback [some "a", some "b", none, some "a"] 3 "E" "E2"
      (by omega)).2.1⟩

/-- Auxiliary characterization of the dict build: folding assignments into
the keyword map yields, for each key, the last matching entry (the first
match in the reversed list), falling back to the initial map. -/
theorem categoryMap_foldl_eq (l : List Assign)
    (m : String → Option (String × String)) (k : String) :
    l.foldl (fun m a => fun k => if k = a.1 then some a.2 else m k) m k =
      match l.reverse.find? (fun a => decide (a.1 = k)) with
      | some a => some a.2
      | none => m k := by
  induction l generalizing m with
  | nil => simp
  | cons a t ih =>
    rw [List.foldl_cons, ih, List.reverse_cons, List.find?_append]
    cases hfind : t.reverse.find? (fun a => decide (a.1 = k)) with
    | some b => simp [Option.or]
    | none =>
      simp only [Option.or_none, Option.none_or]
      by_cases hk : a.1 = k
      · simp [List.find?, hk]
      · have : ¬ (k = a.1) := fun h => hk h.symm
        simp [List.find?, hk, this]

/-- C9: the join step's keyword-to-category map keeps, for each keyword,
only the last-seen assignment in the collected classification results
(dict-comprehension overwrite = first match of the reversed list), and any
keyword with no assignment at all receives the join-time default pair
`("未分類", "未分類")`. -/
theorem join_last_seen_wins (l : List Assign) (k : String) :
    categoryMap l k = (l.reverse.find? (fun a => decide (a.1 = k))).map (fun a => a.2) ∧
    ((∀ a ∈ l, a.1 ≠ k) → applyCategories l k = ("未分類", "未分類")) := by
  have hmap : categoryMap l k =
      match l.reverse.find? (fun a => decide (a.1 = k)) with
      | some a => some a.2
      | none => none :=
    categoryMap_foldl_eq l (fun _ => none) k
  constructor
  · rw [hmap]
    cases l.reverse.find? (fun a => decide (a.1 = k)) <;> rfl
  · intro hnone
    have hfind : l.reverse.find? (fun a => decide (a.1 = k)) = none := by
      rw [List.find?_eq_none]
      intro a ha
      simp only [decide_eq_true_eq]
      exact hnone a (List.mem_reverse.mp ha)
    rw [applyCategories, hmap, hfind]

/-- Witness for C9: duplicate assignments for `"a"` resolve to the later
one, and an unassigned keyword gets the default pair. -/
theorem join_last_seen_wins_witness :
    categoryMap [("a", "x", "y"), ("a", "p", "q")] "a" =
      (([("a", "x", "y"), ("a", "p", "q")] :
          List Assign).reverse.find? (fun a => decide (a.1 = "a"))).map (fun a => a.2) ∧
    applyCategories [("a", "x", "y"), ("a", "p", "q")] "zz" = ("未分類", "未分類") :=
  ⟨(join_last_seen_wins [("a", "x", "y"), ("a", "p", "q")] "a").1,
   (join_last_seen_wins [("a", "x", "y"), ("a", "p", "q")] "zz").2 (by decide)⟩

/-- C10: with an empty api key, `cluster_keywords_with_llm` returns a
3-tuple `(None, None, message)`, on which the call site's two-value
unpacking raises a ValueError instead of receiving the diagnostic; every
other return path of the function returns a 2-tuple, which unpacks
cleanly. -/
theorem cluster_no_credential_arity (kws : List String) (key : String)
    (oracle : OracleOutcome) :
    ((cluster_keywords_with_llm kws "" oracle).length = 3 ∧
      unpackPair (cluster_keywords_with_llm kws "" oracle) =
        .error "ValueError: not enough values to unpack") ∧
    (key ≠ "" → (cluster_keywords_with_llm kws key oracle).length = 2 ∧
      ∃ a b, unpackPair (cluster_keywords_with_llm kws key oracle) = .ok (a, b)) := by
  constructor
  · rw [cluster_keywords_with_llm.eq_def, if_pos rfl]
    exact ⟨rfl, rfl⟩
  · intro hkey
    rw [cluster_keywords_with_llm.eq_def, if_neg hkey]
    by_cases hempty : (kws.filter (fun k => pyStrip k ≠ "")).isEmpty
    · rw [if_pos hempty]
      exact ⟨rfl, _, _, rfl⟩
    · rw [if_neg hempty]
      cases oracle with
      | ok items => exact ⟨rfl, _, _, rfl⟩
      | parseFail raw => exact ⟨rfl, _, _, rfl⟩
      | exn m => exact ⟨rfl, _, _, rfl⟩

/-- Witness for C10 at a concrete keyword list, key, and oracle outcome. -/
theorem cluster_no_credential_arity_witness :
    ((cluster_keywords_with_llm ["a"] "" (.exn "down")).length = 3 ∧
      unpackPair (cluster_keywords_with_llm ["a"] "" (.exn "down")) =
        .error "ValueError: not enough values to unpack") ∧
    (cluster_keywords_with_llm ["a"] "sk-key" (.exn "down")).length = 2 :=
  ⟨(cluster_no_credential_arity ["a"] "sk-key" (.exn "down")).1,
   ((cluster_no_credential_arity ["a"] "sk-key" (.exn "down")).2 (by decide)).1⟩

theorem safeDiv_none_left (b : Option ℚ) : safeDiv none b = none := by
  cases b <;> rfl

theorem safeDiv_none_right (a : Option ℚ) : safeDiv a none = none := by
  cases a <;> rfl

theorem safeDiv_zero (a : Option ℚ) : safeDiv a (some 0) = none := by
  cases a <;> simp [safeDiv]

theorem roundTo_zero (n : ℕ) : roundTo n 0 = 0 := by
  rw [roundTo, rndHalfEven]
  norm_num

/-- C4: in metric derivation, division by a zero or missing denominator
yields the undefined marker `none` in the derived field — never an
exception, infinity, or zero (the embedding already folds in the
inf-to-NaN replacement of app.py line 673); in particular, with
`Clicks = 0`, `CVR` and `CPC` are undefined while `CTR` is defined (and
equals 0) whenever `Impressions` is a positive number. -/
theorem metric_division_by_zero_undefined (r : NumRec) :
    (r.clicks = some 0 ∨ r.clicks = none → dCVR r = none ∧ dCPC r = none) ∧
    (r.imps = some 0 ∨ r.imps = none → dCTR r = none ∧ dCPM r = none) ∧
    (r.conv = some 0 ∨ r.conv = none → dCPA r = none) ∧
    (r.clicks = some 0 → ∀ i : ℚ, r.imps = some i → 0 < i → dCTR r = some 0) := by
  refine ⟨?_, ?_, ?_, ?_⟩
  · rintro (h | h) <;>
      exact ⟨by simp [dCVR, h, safeDiv_zero, safeDiv_none_right],
        by simp [dCPC, h, safeDiv_zero, safeDiv_none_right]⟩
  · rintro (h | h) <;>
      exact ⟨by simp [dCTR, h, safeDiv_zero, safeDiv_none_right],
        by simp [dCPM, h, safeDiv_zero, safeDiv_none_right]⟩
  · rintro (h | h) <;> simp [dCPA, h, safeDiv_zero, safeDiv_none_right]
  · intro h0 i hi hipos
    have hne : i ≠ 0 := ne_of_gt hipos
    simp [dCTR, h0, hi, safeDiv, hne, roundTo_zero]

/-- Witness for C4 at a concrete record with `Clicks = 0`,
`Impressions = 100`. -/
theorem metric_division_by_zero_undefined_witness :
    (dCVR ⟨some 100, some 0, some 50, some 3⟩ = none ∧
      dCPC ⟨some 100, some 0, some 50, some 3⟩ = none) ∧
    dCTR ⟨some 100, some 0, some 50, some 3⟩ = some 0 :=
  ⟨(metric_division_by_zero_undefined ⟨some 100, some 0, some 50, some 3⟩).1 (Or.inl rfl),
   (metric_division_by_zero_undefined ⟨some 100, some 0, some 50, some 3⟩).2.2.2
     rfl 100 rfl (by norm_num)⟩

/-- C5: applying a confirmed mapping in which some required canonical field
has no selected source column fails entirely — the apply step returns the
error branch carrying exactly the required fields that lack a selection
(so no mapped dataframe is produced and nothing is partially applied). -/
theorem mapping_apply_refused (reqSel recSel : List (String × String))
    (df : List (String × List Cell)) (f : String)
    (hf : f ∈ REQUIRED_FIELDS)
    (hsel : ∀ p ∈ selectedMapping reqSel recSel, p.1 ≠ f) :
    applyMapping reqSel recSel df =
      .error (missingFields (selectedMapping reqSel recSel)) ∧
    f ∈ missingFields (selectedMapping reqSel recSel) ∧
    ∀ g, g ∈ missingFields (selectedMapping reqSel recSel) ↔
      (g ∈ REQUIRED_FIELDS ∧ ∀ p ∈ selectedMapping reqSel recSel, p.1 ≠ g) := by
  have hchar : ∀ g, g ∈ missingFields (selectedMapping reqSel recSel) ↔
      (g ∈ REQUIRED_FIELDS ∧ ∀ p ∈ selectedMapping reqSel recSel, p.1 ≠ g) := by
    intro g
    rw [missingFields, List.mem_filter]
    simp [List.any_eq_true]
  have hfmem : f ∈ missingFields (selectedMapping reqSel recSel) :=
    (hchar f).mpr ⟨hf, hsel⟩
  have hne : ¬ (missingFields (selectedMapping reqSel recSel)).isEmpty := by
    intro hemp
    rw [List.isEmpty_iff] at hemp
    rw [hemp] at hfmem
    simp at hfmem
  refine ⟨?_, hfmem, hchar⟩
  rw [applyMapping]
  simp only [if_neg hne]

/-- Witness for C5: a selection with `MatchType` left on the placeholder is
refused with exactly `["MatchType"]`. -/
theorem mapping_apply_refused_witness :
    applyMapping
        [("Keyword", "kw"), ("MatchType", "--選択してください--"), ("Impressions", "i"),
         ("Clicks", "c"), ("Cost", "co"), ("Conversions", "cv")] [] [] =
      .error (missingFields (selectedMapping
        [("Keyword", "kw"), ("MatchType", "--選択してください--"), ("Impressions", "i"),
         ("Clicks", "c"), ("Cost", "co"), ("Conversions", "cv")] [])) ∧
    "MatchType" ∈ missingFields (selectedMapping
        [("Keyword", "kw"), ("MatchType", "--選択してください--"), ("Impressions", "i"),
         ("Clicks", "c"), ("Cost", "co"), ("Conversions", "cv")] []) :=
  ⟨(mapping_apply_refused _ _ [] "MatchType" (by decide) (by decide)).1,
   (mapping_apply_refused _ _ [] "MatchType" (by decide) (by decide)).2.1⟩

/-- C7 counterexample: the claim that canonicalized numeric fields are
coerced to non-negative numbers or marked invalid is false — the string
cell `"-5"` is coerced to the negative number `-5` and is not marked
invalid. -/
theorem canon_negative_not_invalid :
    (canonRecord (.num 100) (.num 10) (.str "-5") (.num 1)).cost = some (-5) ∧
    ¬ (0 ≤ (-5 : ℚ)) := by
  constructor
  · rw [show (canonRecord (.num 100) (.num 10) (.str "-5") (.num 1)).cost
        = some (-((5 : ℕ) : ℚ)) from rfl]
    norm_num
  · norm_num

/-- C7 (amended): canonicalized numeric fields are coerced to rational
numbers (not necessarily non-negative) or explicitly marked invalid
(`none`), and invalid inputs propagate as missing/undefined derived
metrics — every derived metric is total (`none` or a finite rational,
never an exception). -/
theorem canon_invalid_propagates (imps clicks cost conv : Cell) :
    (∀ v ∈ [dCTR (canonRecord imps clicks cost conv),
        dCVR (canonRecord imps clicks cost conv),
        dCPC (canonRecord imps clicks cost conv),
        dCPA (canonRecord imps clicks cost conv),
        dCPM (canonRecord imps clicks cost conv)],
      v = none ∨ ∃ q : ℚ, v = some q) ∧
    (toNumericCell clicks = none →
      dCTR (canonRecord imps clicks cost conv) = none ∧
      dCVR (canonRecord imps clicks cost conv) = none ∧
      dCPC (canonRecord imps clicks cost conv) = none) ∧
    (toNumericCell imps = none →
      dCTR (canonRecord imps clicks cost conv) = none ∧
      dCPM (canonRecord imps clicks cost conv) = none) ∧
    (toNumericCell cost = none →
      dCPC (canonRecord imps clicks cost conv) = none ∧
      dCPA (canonRecord imps clicks cost conv) = none ∧
      dCPM (canonRecord imps clicks cost conv) = none) ∧
    (toNumericCell conv = none →
      dCVR (canonRecord imps clicks cost conv) = none ∧
      dCPA (canonRecord imps clicks cost conv) = none) := by
  refine ⟨?_, ?_, ?_, ?_, ?_⟩
  · intro v _
    cases v with
    | none => exact Or.inl rfl
    | some q => exact Or.inr ⟨q, rfl⟩
  · intro h
    refine ⟨?_, ?_, ?_⟩ <;>
      simp [dCTR, dCVR, dCPC, canonRecord, h, safeDiv_none_left, safeDiv_none_right]
  · intro h
    refine ⟨?_, ?_⟩ <;>
      simp [dCTR, dCPM, canonRecord, h, safeDiv_none_left, safeDiv_none_right]
  · intro h
    refine ⟨?_, ?_, ?_⟩ <;>
      simp [dCPC, dCPA, dCPM, canonRecord, h, safeDiv_none_left, safeDiv_none_right]
  · intro h
    refine ⟨?_, ?_⟩ <;>
      simp [dCVR, dCPA, canonRecord, h, safeDiv_none_left, safeDiv_none_right]

/-- Witness for C7 (amended) at all-invalid raw cells. -/
theorem canon_invalid_propagates_witness :
    (dCTR (canonRecord (.str "abc") (.str "abc") (.str "abc") (.str "abc")) = none ∧
      dCVR (canonRecord (.str "abc") (.str "abc") (.str "abc") (.str "abc")) = none ∧
      dCPC (canonRecord (.str "abc") (.str "abc") (.str "abc") (.str "abc")) = none) ∧
    (dCPC (canonRecord (.str "abc") (.str "abc") (.str "abc") (.str "abc")) = none ∧
      dCPA (canonRecord (.str "abc") (.str "abc") (.str "abc") (.str "abc")) = none ∧
      dCPM (canonRecord (.str "abc") (.str "abc") (.str "abc") (.str "abc")) = none) :=
  ⟨(canon_invalid_propagates (.str "abc") (.str "abc") (.str "abc") (.str "abc")).2.1 rfl,
   (canon_invalid_propagates (.str "abc") (.str "abc") (.str "abc") (.str "abc")).2.2.2.1 rfl⟩

theorem insertDesc_ne_nil (x : ℚ) (l : List ℚ) : insertDesc x l ≠ [] := by
  cases l with
  | nil => simp [insertDesc]
  | cons y ys =>
    rw [insertDesc]
    split <;> simp

theorem selTag_ge (t total : ℚ) :
    ∀ (l : List ℚ) (i : ℕ) (acc : ℚ) (j : ℕ), j ∈ selTag t total i acc l → i ≤ j := by
  intro l
  induction l with
  | nil =>
    intro i acc j h
    simp [selTag] at h
  | cons c rest ih =>
    intro i acc j h
    rw [selTag] at h
    simp only [List.mem_append] at h
    rcases h with h1 | h2
    · split at h1 <;> simp_all
    · have := ih (i + 1) (acc + c) j h2
      omega

theorem selEval0 : selectPositions [100, 50, 10] 0 = [] := by
  norm_num [selectPositions, selTag, sortDesc, insertDesc, pdiv, pmul, pvalLe,
    List.sum_cons, List.sum_nil]

theorem selEval62 : selectPositions [100, 50, 10] (125/2) = [1] := by
  norm_num [selectPositions, selTag, sortDesc, insertDesc, pdiv, pmul, pvalLe,
    List.sum_cons, List.sum_nil]

theorem selEval100 : selectPositions [100, 50, 10] 100 = [1, 2, 3] := by
  norm_num [selectPositions, selTag, sortDesc, insertDesc, pdiv, pmul, pvalLe,
    List.sum_cons, List.sum_nil]

/-- C1 counterexample: on the concrete cost column `[100, 50, 10]` the
selector keeps no row at threshold 0 — in particular the first row is not
always included — and keeps only row 1 (not rows 1 and 2) at threshold
62.5. -/
theorem selector_concrete_counterexample :
    selectPositions [100, 50, 10] 0 = [] ∧
    ¬ (1 ∈ selectPositions [100, 50, 10] 0) ∧
    selectPositions [100, 50, 10] (125/2) = [1] := by
  refine ⟨selEval0, ?_, selEval62⟩
  intro h
  rw [selEval0] at h
  simp at h

/-- C1 (amended): a record is included exactly when its cumulative-cost
percent is at most the threshold, so the first (largest-cost) row is
included iff its own cost share of total, in percent, is at most the
threshold — not for every threshold; on the concrete 3-row input with
costs `[100, 50, 10]` the thresholds 0, 62.5 and 100 select exactly the
row sets `{}`, `{1}` and `{1, 2, 3}` respectively. -/
theorem selector_first_row_iff (costs : List ℚ) (t : ℚ)
    (hne : costs ≠ []) (hpos : 0 < costs.sum) :
    (1 ∈ selectPositions costs t ↔ (sortDesc costs).headI * 100 / costs.sum ≤ t) ∧
    selectPositions [100, 50, 10] 0 = [] ∧
    selectPositions [100, 50, 10] (125/2) = [1] ∧
    selectPositions [100, 50, 10] 100 = [1, 2, 3] := by
  refine ⟨?_, selEval0, selEval62, selEval100⟩
  obtain ⟨c, rest, hs⟩ : ∃ c rest, sortDesc costs = c :: rest := by
    cases hc : costs with
    | nil => exact absurd hc hne
    | cons x xs =>
      rw [sortDesc]
      cases hi : insertDesc x (sortDesc xs) with
      | nil => exact absurd hi (insertDesc_ne_nil x (sortDesc xs))
      | cons c rest => exact ⟨c, rest, rfl⟩
  have htot : costs.sum ≠ 0 := ne_of_gt hpos
  rw [selectPositions, hs, selTag]
  simp only [zero_add, List.headI]
  rw [pdiv, if_pos htot]
  show 1 ∈ (if pvalLe (.num (c / costs.sum * 100)) t = true then [1] else [])
      ++ selTag t costs.sum 2 c rest ↔ c * 100 / costs.sum ≤ t
  rw [pvalLe]
  by_cases hle : c / costs.sum * 100 ≤ t
  · rw [if_pos (by simpa using hle)]
    simp only [List.cons_append, List.nil_append, List.mem_cons, true_or, true_iff]
    rw [div_mul_eq_mul_div] at hle
    exact hle
  · rw [if_neg (by simpa using hle)]
    simp only [List.nil_append]
    constructor
    · intro h
      have := selTag_ge t costs.sum rest 2 c 1 h
      omega
    · intro h
      rw [div_mul_eq_mul_div] at hle
      exact absurd h hle

theorem groupAgg_fields {K : Type} [DecidableEq K] (key : CatRow → Option K)
    (rows : List CatRow) (k : K) (fields : List (String × PVal))
    (hmem : (k, fields) ∈ groupAgg key rows) :
    ratioFieldsOK key rows k fields := by
  rw [groupAgg] at hmem
  rw [List.mem_map] at hmem
  obtain ⟨k', hk', heq⟩ := hmem
  rw [Prod.mk.injEq] at heq
  obtain ⟨hk, hf⟩ := heq
  subst hk
  subst hf
  exact ⟨rfl, rfl, rfl, rfl, rfl, rfl, rfl, rfl, rfl, rfl⟩

/-- C2 counterexample: on a concrete one-row categorized dataset, none of
the five rollup tables contains a `CPM` column, so the claim that every
rollup contains all five derived ratios (including CPM) is false. -/
theorem rollup_missing_cpm :
    (axis_stats [sampleRow]).map (fun p => lookupField "CPM" p.2) = [none] ∧
    (combination_stats [sampleRow]).map (fun p => lookupField "CPM" p.2) = [none] ∧
    (cross_stats [sampleRow]).map (fun p => lookupField "CPM" p.2) = [none] ∧
    (match_type_stats [sampleRow]).map (fun p => lookupField "CPM" p.2) = [none] ∧
    (axis_match_type_stats [sampleRow]).map (fun p => lookupField "CPM" p.2) = [none] :=
  ⟨rfl, rfl, rfl, rfl, rfl⟩

/-- C2 (amended): every row of every RollupTable (axis, combination,
axis×combination, match-type, axis×match-type) contains the count column,
the four summed base fields, and the four derived ratios CTR, CVR, CPC and
CPA, each recomputed from the aggregated sums of its group (sum first,
then divide — never averaged from per-row ratios); CPM is not among the
rollup columns. -/
theorem rollup_ratios_recomputed (rows : List CatRow) :
    (∀ k fields, (k, fields) ∈ axis_stats rows →
      ratioFieldsOK (fun r => some r.axisCategory) rows k fields) ∧
    (∀ k fields, (k, fields) ∈ combination_stats rows →
      ratioFieldsOK (fun r => some r.combinationCategory) rows k fields) ∧
    (∀ k fields, (k, fields) ∈ cross_stats rows →
      ratioFieldsOK (fun r => some (r.axisCategory, r.combinationCategory)) rows k fields) ∧
    (∀ k fields, (k, fields) ∈ match_type_stats rows →
      ratioFieldsOK (fun r => r.matchType) rows k fields) ∧
    (∀ k fields, (k, fields) ∈ axis_match_type_stats rows →
      ratioFieldsOK (fun r => r.matchType.map (fun m => (r.axisCategory, m))) rows k fields) :=
  ⟨fun _ _ h => groupAgg_fields _ rows _ _ h,
   fun _ _ h => groupAgg_fields _ rows _ _ h,
   fun _ _ h => groupAgg_fields _ rows _ _ h,
   fun _ _ h => groupAgg_fields _ rows _ _ h,
   fun _ _ h => groupAgg_fields _ rows _ _ h⟩

/-- Witness for C2 (amended) on the concrete one-row dataset. -/
theorem rollup_ratios_recomputed_witness :
    ratioFieldsOK (fun r => some r.axisCategory) [sampleRow] "A"
      (statRow 1 100 10 50 1) := by
  have hmem : ("A", statRow 1 100 10 50 1) ∈ axis_stats [sampleRow] := by
    have heq : axis_stats [sampleRow] = [("A", statRow 1 100 10 50 1)] := by
      norm_num [axis_stats, groupAgg, uniqueFirst, uniqueFirstAux, sampleRow, sumOpt,
        List.filterMap_cons, List.filterMap_nil, List.sum_cons, List.sum_nil]
    rw [heq]
    exact List.mem_singleton.mpr rfl
  exact (rollup_ratios_recomputed [sampleRow]).1 "A" _ hmem

/-- Witness for C1 (amended) at costs `[100, 50, 10]`, threshold 62.5. -/
theorem selector_first_row_iff_witness :
    (1 ∈ selectPositions [100, 50, 10] (125/2) ↔
      (sortDesc [100, 50, 10]).headI * 100 / ([100, 50, 10] : List ℚ).sum ≤ 125/2) ∧
    selectPositions [100, 50, 10] 0 = [] ∧
    selectPositions [100, 50, 10] (125/2) = [1] ∧
    selectPositions [100, 50, 10] 100 = [1, 2, 3] :=
  selector_first_row_iff [100, 50, 10] (125/2) (by decide)
    (by norm_num [List.sum_cons, List.sum_nil])

theorem find?_congr_all {α : Type _} (p q : α → Bool) :
    ∀ l : List α, (∀ a ∈ l, p a = q a) → l.find? p = l.find? q := by
  intro l
  induction l with
  | nil => intro h; rfl
  | cons a t ih =>
    intro h
    rw [List.find?_cons, List.find?_cons, h a (List.mem_cons_self a t)]
    cases q a
    · exact ih (fun x hx => h x (List.mem_cons_of_mem a hx))
    · rfl

theorem exists_max_score {α : Type _} (g : α → ℚ) :
    ∀ (l : List α), l ≠ [] → ∃ e ∈ l, ∀ x ∈ l, g x ≤ g e := by
  intro l
  induction l with
  | nil => intro h; exact absurd rfl h
  | cons a t ih =>
    intro _
    by_cases ht : t = []
    · subst ht
      refine ⟨a, List.mem_cons_self a [], ?_⟩
      intro x hx
      rw [List.mem_singleton] at hx
      exact hx ▸ le_refl _
    · obtain ⟨e, he, hmax⟩ := ih ht
      by_cases hc : g a ≤ g e
      · refine ⟨e, List.mem_cons_of_mem a he, ?_⟩
        intro x hx
        rcases List.mem_cons.mp hx with h | h
        · exact h ▸ hc
        · exact hmax x h
      · refine ⟨a, List.mem_cons_self a t, ?_⟩
        intro x hx
        rcases List.mem_cons.mp hx with h | h
        · exact h ▸ le_refl _
        · exact le_trans (hmax x h) (le_of_not_le hc)

theorem foldl_best_argmax {α β : Type _} (g : α → ℚ) (h : α → β) :
    ∀ (cands : List α) (b : Option β) (s : ℚ),
      (cands.foldl (fun a c => if a.2 < g c then (some (h c), g c) else a) (b, s)).1 =
        match cands.find? (fun c => decide (s < g c) &&
            cands.all (fun d => decide (g d ≤ g c))) with
        | some c => some (h c)
        | none => b := by
  intro cands
  induction cands with
  | nil => intro b s; rfl
  | cons c t ih =>
    intro b s
    rw [List.foldl_cons]
    by_cases hc : s < g c
    · rw [if_pos hc, ih (some (h c)) (g c)]
      by_cases hA : t.all (fun d => decide (g d ≤ g c)) = true
      · have hhead : (decide (s < g c) &&
            (c :: t).all (fun d => decide (g d ≤ g c))) = true := by
          simp [List.all_cons, hc, hA]
        simp only [List.find?_cons, hhead]
        have hnone : t.find? (fun e => decide (g c < g e) &&
            t.all (fun d => decide (g d ≤ g e))) = none := by
          rw [List.find?_eq_none]
          intro e he
          have hle : g e ≤ g c := by
            have := List.all_eq_true.mp hA e he
            simpa using this
          simp [not_lt.mpr hle]
        rw [hnone]
      · obtain ⟨d, hd, hdgt⟩ : ∃ d ∈ t, g c < g d := by
          rw [Bool.not_eq_true] at hA
          obtain ⟨d, hd, hp⟩ := List.all_eq_false.mp hA
          refine ⟨d, hd, ?_⟩
          simpa using hp
        have hheadf : (decide (s < g c) &&
            (c :: t).all (fun d => decide (g d ≤ g c))) = false := by
          rw [Bool.eq_false_iff]
          simp only [Ne, List.all_cons, Bool.and_eq_true, decide_eq_true_eq]
          rintro ⟨-, -, hall⟩
          exact hA hall
        simp only [List.find?_cons, hheadf]
        have hcongr : t.find? (fun e => decide (g c < g e) &&
              t.all (fun d => decide (g d ≤ g e))) =
            t.find? (fun e => decide (s < g e) &&
              (c :: t).all (fun d => decide (g d ≤ g e))) := by
          refine find?_congr_all _ _ t ?_
          intro e he
          by_cases hall : t.all (fun d => decide (g d ≤ g e)) = true
          · have hde : g d ≤ g e := by
              have := List.all_eq_true.mp hall d hd
              simpa using this
            have h1 : g c < g e := lt_of_lt_of_le hdgt hde
            have h2 : s < g e := lt_trans hc h1
            simp [List.all_cons, hall, h1, h2, le_of_lt h1]
          · simp [List.all_cons, hall]
        rw [hcongr]
        cases hfind : t.find? (fun e => decide (s < g e) &&
            (c :: t).all (fun d => decide (g d ≤ g e))) with
        | some e => rfl
        | none =>
          exfalso
          obtain ⟨e, he, hmax⟩ := exists_max_score g t (by rintro rfl; simp at hd)
          have hQ := List.find?_eq_none.mp hfind e he
          apply hQ
          have h1 : g c < g e := lt_of_lt_of_le hdgt (hmax d hd)
          have h2 : s < g e := lt_trans hc h1
          simp only [List.all_cons, Bool.and_eq_true, decide_eq_true_eq]
          refine ⟨h2, le_of_lt h1, ?_⟩
          rw [List.all_eq_true]
          intro x hx
          simpa using hmax x hx
    · rw [if_neg hc, ih b s]
      have hheadf : (decide (s < g c) &&
          (c :: t).all (fun d => decide (g d ≤ g c))) = false := by
        simp [hc]
      simp only [List.find?_cons, hheadf]
      have hcongr : t.find? (fun e => decide (s < g e) &&
            t.all (fun d => decide (g d ≤ g e))) =
          t.find? (fun e => decide (s < g e) &&
            (c :: t).all (fun d => decide (g d ≤ g e))) := by
        refine find?_congr_all _ _ t ?_
        intro e he
        by_cases hall : t.all (fun d => decide (g d ≤ g e)) = true
        · by_cases hse : s < g e
          · have hce : g c ≤ g e := le_trans (le_of_not_lt hc) (le_of_lt hse)
            simp [List.all_cons, hall, hse, hce]
          · simp [List.all_cons, hse]
        · simp [List.all_cons, hall]
      rw [hcongr]

theorem fuzzyBest_eq_argmax (sim : String → String → ℚ) (l : String) :
    fuzzyBest sim l = fuzzyArgmax sim l := by
  have h := foldl_best_argmax (fun c : String × String => sim l (strLower c.2))
    (fun c : String × String => c.1) fuzzyCandidates none (7/10)
  rw [fuzzyBest, fuzzyScan]
  rw [fuzzyArgmax]
  refine h.trans ?_
  cases List.find? (fun c => decide (7/10 < sim l (strLower c.2)) &&
      fuzzyCandidates.all (fun d =>
        decide (sim l (strLower d.2) ≤ sim l (strLower c.2)))) fuzzyCandidates with
  | some c => rfl
  | none => rfl

theorem findSome_fieldRule_no_exact (l : String) :
    ∀ fs : List (String × List String), (∀ p ∈ fs, l ≠ strLower p.1) →
    fs.findSome? (fun p => fieldRule l p.1 p.2) =
      fs.findSome? (fun p =>
        if p.2.any (fun a => substrMatch (strLower a) l) then some p.1 else none) := by
  intro fs
  induction fs with
  | nil => intro _; rfl
  | cons p t ih =>
    intro h
    rw [List.findSome?_cons, List.findSome?_cons]
    have hrule : fieldRule l p.1 p.2 =
        if p.2.any (fun a => substrMatch (strLower a) l) then some p.1 else none := by
      rw [fieldRule, if_neg (h p (List.mem_cons_self p t))]
    rw [hrule, ih (fun q hq => h q (List.mem_cons_of_mem p hq))]

theorem exactPhase_eq_none (l : String) (h : ∀ p ∈ STANDARD_FIELDS, l ≠ strLower p.1) :
    exactPhase l = none := by
  rw [exactPhase, List.findSome?_eq_none_iff]
  intro p hp
  rw [if_neg (h p hp)]

theorem ruleMatch_eq_phases (l : String) :
    ruleMatch l = (exactPhase l).or (aliasPhase l) := by
  by_cases h1 : l = "keyword"
  · subst h1; decide
  by_cases h2 : l = "matchtype"
  · subst h2; decide
  by_cases h3 : l = "impressions"
  · subst h3; decide
  by_cases h4 : l = "clicks"
  · subst h4; decide
  by_cases h5 : l = "cost"
  · subst h5; decide
  by_cases h6 : l = "conversions"
  · subst h6; decide
  by_cases h7 : l = "campaignname"
  · subst h7; decide
  by_cases h8 : l = "adgroupname"
  · subst h8; decide
  have hall : ∀ p ∈ STANDARD_FIELDS, l ≠ strLower p.1 := by
    intro p hp
    simp only [STANDARD_FIELDS, List.mem_cons, List.not_mem_nil, or_false] at hp
    rcases hp with h | h | h | h | h | h | h | h <;> subst h
    · exact h1
    · exact h2
    · exact h3
    · exact h4
    · exact h5
    · exact h6
    · exact h7
    · exact h8
  rw [ruleMatch, findSome_fieldRule_no_exact l STANDARD_FIELDS hall,
    exactPhase_eq_none l hall]
  rfl

/-- C3: the rule-based Field Resolver is equivalent, for every label and
every similarity function, to the resolver the claim describes — exact
case-insensitive match on a canonical field name first, then
case-insensitive alias-substring match, then the fuzzy phase accepting the
best-scoring field/alias only when its score strictly exceeds 0.7 with
ties broken by the first-enumerated candidate, and otherwise `"unknown"`;
in particular a label equal (case-insensitively) to a canonical field name
resolves to that field. -/
theorem resolver_rule_priority (sim : String → String → ℚ) (col : String) :
    resolveLabel sim col = resolveLabelSpec sim col ∧
    ∀ p ∈ STANDARD_FIELDS, strLower col = strLower p.1 → resolveLabel sim col = p.1 := by
  constructor
  · show (match ruleMatch (strLower col) with
      | some f => f
      | none =>
        match fuzzyBest sim (strLower col) with
        | some f => f
        | none => "unknown") =
      (match exactPhase (strLower col) with
      | some f => f
      | none =>
        match aliasPhase (strLower col) with
        | some f => f
        | none =>
          match fuzzyArgmax sim (strLower col) with
          | some f => f
          | none => "unknown")
    rw [ruleMatch_eq_phases, fuzzyBest_eq_argmax]
    cases exactPhase (strLower col) <;> cases aliasPhase (strLower col) <;> rfl
  · intro p hp hl
    show (match ruleMatch (strLower col) with
      | some f => f
      | none =>
        match fuzzyBest sim (strLower col) with
        | some f => f
        | none => "unknown") = p.1
    rw [hl]
    simp only [STANDARD_FIELDS, List.mem_cons, List.not_mem_nil, or_false] at hp
    rcases hp with h | h | h | h | h | h | h | h <;> subst h <;> rfl

/-- Witness for C3 at the label `"COST"` and a constant similarity. -/
theorem resolver_rule_priority_witness :
    resolveLabel (fun _ _ => 0) "COST" = resolveLabelSpec (fun _ _ => 0) "COST" ∧
    resolveLabel (fun _ _ => 0) "COST" = "Cost" :=
  ⟨(resolver_rule_priority (fun _ _ => 0) "COST").1,
   (resolver_rule_priority (fun _ _ => 0) "COST").2
     ("Cost", ["コスト", "cost", "費用", "金額", "spend", "支出"]) (by decide) rfl⟩

end KwAna
